import Mathlib

/-!
Shallow embedding of the maintenance agent's update-tracking and decision
pipeline (src/agent: scanners.py, main.py, analyzer.py, notifier.py,
pr_creator.py).  Pure logic is translated directly from the source; external
HTTP and LLM calls appear as explicit parameters holding their observed
results, so that the surrounding control flow stays exactly as written.
-/

namespace MaintAgent

/-- Record stored by `StateManager` for one repository key
(scanners.py lines 176-192): the JSON object kept under that key, with
fields `last_version` and `last_checked`.  Both are optional since a JSON
object need not carry them. -/
structure RepoState where
  last_version : Option String
  last_checked : Option String
deriving DecidableEq

/-- Dictionary `StateManager.state`: a finite map from repository key to its
record, modelled as a function that is `none` on absent keys. -/
def AgentState : Type := String → Option RepoState

/-- Translation of `StateManager.get_last_seen` (scanners.py 176-178):
`self.state.get(repo_key, {}).get("last_version")`. -/
def get_last_seen (st : AgentState) (repo_key : String) : Option String :=
  match st repo_key with
  | none => none
  | some r => r.last_version

/-- Translation of `StateManager.update_last_seen` (scanners.py 180-187):
creates the entry if missing and overwrites both `last_version` and
`last_checked`; `now` is the timestamp written into `last_checked`. -/
def update_last_seen (st : AgentState) (repo_key version now : String) : AgentState :=
  fun k => if k = repo_key then some ⟨some version, some now⟩ else st k

/-- Translation of `StateManager.is_new_version` (scanners.py 189-192):
`last_seen is None or last_seen != version`. -/
def is_new_version (st : AgentState) (repo_key version : String) : Bool :=
  match get_last_seen st repo_key with
  | none => true
  | some last_seen => last_seen != version

/-- Sequence of later `update_last_seen` mutations, each given as
(repo_key, version, timestamp), applied in order. -/
def applyUpdates (st : AgentState) (ms : List (String × String × String)) : AgentState :=
  ms.foldl (fun s m => update_last_seen s m.1 m.2.1 m.2.2) st

/-- Configuration entry for one watched source repository (main.py 46-49):
`owner`, `repo` and the `watch_for` list. -/
structure RepoConfig where
  owner : String
  repo : String
  watch_for : List String
deriving DecidableEq

/-- One update dictionary appended by `MaintenanceAgent.scan_repository`
(main.py 64-72 and 83-91); the raw release data and changelog are not
relevant to the claims and omitted. -/
structure Update where
  type : String
  repo : String
  version : String
deriving DecidableEq

/-- Translation of `MaintenanceAgent.scan_repository` (main.py 40-93).
The fetched data is passed in: `latest_release` is the `tag_name` of the
latest release (none when the GitHub call found nothing), `latest_tag` the
`name` of the most recent tag.  Releases are checked under key
`owner/repo`; tags only when "releases" is not watched (elif), under key
`owner/repo/tags`. -/
def scan_repository (st : AgentState) (cfg : RepoConfig)
    (latest_release latest_tag : Option String) : List Update :=
  if "releases" ∈ cfg.watch_for then
    match latest_release with
    | some version =>
      if is_new_version st (cfg.owner ++ "/" ++ cfg.repo) version then
        [Update.mk "release" (cfg.owner ++ "/" ++ cfg.repo) version]
      else []
    | none => []
  else if "tags" ∈ cfg.watch_for then
    match latest_tag with
    | some version =>
      if is_new_version st (cfg.owner ++ "/" ++ cfg.repo ++ "/tags") version then
        [Update.mk "tag" (cfg.owner ++ "/" ++ cfg.repo) version]
      else []
    | none => []
  else []

/-- State effect of `MaintenanceAgent.process_update` (main.py 95-161): both
the skip branch (line 132) and the notify branch (line 159) call
`update_last_seen(repo_name, new_version)` with `repo_name = update["repo"]`. -/
def process_update_state (st : AgentState) (u : Update) (now : String) : AgentState :=
  update_last_seen st u.repo u.version now

/-- One invocation of the pipeline for one source (main.py 189-196): scan,
then process each update found.  The second component lists the updates
passed to `process_update`, i.e. exactly the (source, version) pairs for
which `analyze_update` is invoked (main.py 111). -/
def run_cycle (st : AgentState) (cfg : RepoConfig)
    (latest_release latest_tag : Option String) (now : String) :
    AgentState × List Update :=
  let updates := scan_repository st cfg latest_release latest_tag
  (updates.foldl (fun s u => process_update_state s u now) st, updates)

/-- Analysis dictionary handled by `UpdateAnalyzer` and `GitHubNotifier`
(analyzer.py 32-46).  Python dicts are open, so each field is optional;
`.get` defaults in the source become `Option.getD` here. -/
structure AnalysisDict where
  priority : Option Int
  recommendation : Option String
  breaking_changes : Option Bool
  summary : Option String
  risks : Option (List String)
  benefits : Option (List String)
  action_items : Option (List String)
deriving DecidableEq

/-- Translation of `UpdateAnalyzer.should_create_issue` (analyzer.py 143-156):
defaults are priority 0 and recommendation "IGNORE"; rule 1 fires on
priority >= 9 or BLOCK, rule 2 on priority >= min_priority and not IGNORE. -/
def should_create_issue (analysis : AnalysisDict) (min_priority : Int) : Bool :=
  let priority := analysis.priority.getD 0
  let recommendation := analysis.recommendation.getD "IGNORE"
  if 9 ≤ priority ∨ recommendation = "BLOCK" then true
  else if min_priority ≤ priority ∧ recommendation ≠ "IGNORE" then true
  else false

/-- Substring occurrence on character lists: `pat` occurs in `s` when it is
a prefix of some suffix of `s`.  The empty pattern occurs in every list,
matching Python semantics. -/
def listContains (s pat : List Char) : Bool :=
  match s with
  | [] => pat.isEmpty
  | _ :: tail => pat.isPrefixOf s || listContains tail pat

/-- Python substring test `pat in s`, over the character lists of the two
strings. -/
def strContains (s pat : String) : Bool :=
  listContains s.data pat.data

/-- Python `str.lower()`, as a character-wise map over the string's
characters. -/
def lowerStr (s : String) : String :=
  String.mk (s.data.map Char.toLower)

/-- Markdown fence stripping and whitespace strip applied to the LLM
response before `json.loads` (analyzer.py 114-121). -/
def extractJsonText (response_text : String) : String :=
  let stripped :=
    if strContains response_text "```json" then
      (((response_text.splitOn "```json").getD 1 "").splitOn "```").getD 0 ""
    else if strContains response_text "```" then
      (((response_text.splitOn "```").getD 1 "").splitOn "```").getD 0 ""
    else response_text
  stripped.trim

/-- Fixed degraded verdict returned by the `except` branch of
`UpdateAnalyzer.analyze_update` (analyzer.py 130-141). -/
def fallback_analysis (current_version new_version : String) : AnalysisDict :=
  AnalysisDict.mk (some 5) (some "EVALUATE") (some false)
    (some ("Update from " ++ current_version ++ " to " ++ new_version ++
      " detected. Manual review needed."))
    (some ["Unable to analyze automatically"]) (some ["Unknown"])
    (some ["Review changelog manually"])

/-- Outcome of the remote LLM call in `analyze_update` (analyzer.py 103-111):
either the call raised an exception or it returned the response text. -/
inductive LLMResult where
  | raised
  | returned (text : String)
deriving DecidableEq

/-- Translation of `UpdateAnalyzer.analyze_update` (analyzer.py 102-141),
with the external pieces passed in: `llm` is the outcome of the API call
and `json_loads` the behaviour of `json.loads` (none models a raised
`JSONDecodeError`).  Any exception inside the `try` block, including the
`KeyError` from `analysis["priority"]` / `analysis["recommendation"]` in
the logging call on lines 123-126 when a parsed dict lacks those keys,
lands in the `except` branch returning the fixed fallback. -/
def analyze_update (current_version new_version : String) (llm : LLMResult)
    (json_loads : String → Option AnalysisDict) : AnalysisDict :=
  match llm with
  | .raised => fallback_analysis current_version new_version
  | .returned text =>
    match json_loads (extractJsonText text) with
    | none => fallback_analysis current_version new_version
    | some analysis =>
      if analysis.priority.isSome && analysis.recommendation.isSome then analysis
      else fallback_analysis current_version new_version

/-- Issue item as consulted by the notifier: only the `title` field of a
search result item is inspected by the deduplication logic
(notifier.py 84-89). -/
structure Issue where
  title : String
deriving DecidableEq

/-- Translation of `GitHubNotifier.check_existing_issue` (notifier.py 64-98).
The search call's outcome is passed in: `none` models a non-200 response or
a raised exception (both return None), `some items` the `items` list of a
200 response.  The loop returns the first item whose lowercased title
contains the lowercased search title. -/
def check_existing_issue (search_result : Option (List Issue))
    (search_title : String) : Option Issue :=
  match search_result with
  | none => none
  | some items =>
    items.find? (fun item => strContains (lowerStr item.title) (lowerStr search_title))

/-- Lookup in the `label_map` dict of `GitHubNotifier.get_labels_for_update`
(notifier.py 110-117): `if recommendation in label_map` guards the append. -/
def label_map_lookup (recommendation : String) : Option String :=
  if recommendation = "UPDATE" then some "enhancement"
  else if recommendation = "EVALUATE" then some "needs-testing"
  else if recommendation = "BLOCK" then some "blocked"
  else if recommendation = "IGNORE" then some "wontfix"
  else none

/-- Translation of `GitHubNotifier.get_labels_for_update`
(notifier.py 100-131): two constant labels, then the recommendation label
when the map has it, then a priority label only when priority is at least
5, then "breaking-change" when flagged. -/
def get_labels_for_update (analysis : AnalysisDict) : List String :=
  let labels := ["maintenance-agent", "dependencies"]
  let recommendation := analysis.recommendation.getD "EVALUATE"
  let priority := analysis.priority.getD 5
  let breaking_changes := analysis.breaking_changes.getD false
  let labels := labels ++ (match label_map_lookup recommendation with
    | some l => [l]
    | none => [])
  let labels := labels ++
    (if 9 ≤ priority then ["priority:critical"]
     else if 7 ≤ priority then ["priority:high"]
     else if 5 ≤ priority then ["priority:medium"]
     else [])
  let labels := labels ++ (if breaking_changes then ["breaking-change"] else [])
  labels

/-- Observable outcome of `GitHubNotifier.create_update_notification`:
the returned boolean plus whether `create_issue` was invoked at all. -/
structure NotifyResult where
  created : Bool
  create_issue_called : Bool
deriving DecidableEq

/-- Translation of `GitHubNotifier.create_update_notification`
(notifier.py 133-173).  The two network interactions are passed in:
`search_result` feeds `check_existing_issue`, and `create_result` is what
`create_issue` would return if called (`none` models a failed creation).
When an existing issue is found the function returns False without calling
`create_issue`; otherwise it returns `issue is not None`.  The rendered
title and body do not influence the result. -/
def create_update_notification (source_repo new : String)
    (search_result : Option (List Issue)) (create_result : Option Issue) :
    NotifyResult :=
  let search_term := source_repo ++ " " ++ new
  match check_existing_issue search_result search_term with
  | some _ => NotifyResult.mk false false
  | none => NotifyResult.mk create_result.isSome true

/-- Latest-release data consulted by `GitHubScanner.check_for_updates`
(scanners.py 134-135): the `tag_name` and `body` fields of the release
dict, each optional because `.get` supplies a default. -/
structure ReleaseData where
  tag_name : Option String
  body : Option String
deriving DecidableEq

/-- Latest-tag data consulted by `GitHubScanner.check_for_updates`
(scanners.py 117): the `name` field of the first tag dict. -/
structure TagData where
  name : Option String
deriving DecidableEq

/-- Result dictionary of `GitHubScanner.check_for_updates`
(scanners.py 102-109), without the raw `release_data` passthrough. -/
structure UpdateCheck where
  has_update : Bool
  current : String
  latest : String
  changelog : String
deriving DecidableEq

/-- Translation of `GitHubScanner.check_for_updates` (scanners.py 98-143):
tries the latest release first; when it is absent, falls back to the most
recent tag; when both are absent reports no update with latest "unknown". -/
def check_for_updates (current_version : String)
    (latest_release : Option ReleaseData) (latest_tag : Option TagData) :
    UpdateCheck :=
  match latest_release with
  | none =>
    match latest_tag with
    | some tag =>
      let latest_version := tag.name.getD "unknown"
      UpdateCheck.mk (latest_version != current_version) current_version latest_version ""
    | none => UpdateCheck.mk false current_version "unknown" ""
  | some release =>
    let latest_version := release.tag_name.getD "unknown"
    UpdateCheck.mk (latest_version != current_version) current_version latest_version
      (release.body.getD "")

/-- Character class `[a-f0-9]` of the regex in
`PRCreator._update_file_content` (pr_creator.py 174). -/
def hexChar (c : Char) : Bool :=
  (decide ('a' ≤ c) && decide (c ≤ 'f')) || (decide ('0' ≤ c) && decide (c ≤ '9'))

/-- Literal part `COMFYUI_COMMIT=` of the regex pattern
`(COMFYUI_COMMIT=)([a-f0-9]+)` (pr_creator.py 174). -/
def marker : List Char :=
  ['C', 'O', 'M', 'F', 'Y', 'U', 'I', '_', 'C', 'O', 'M', 'M', 'I', 'T', '=']

/-- Test whether the regex `(COMFYUI_COMMIT=)([a-f0-9]+)` matches at the
start of `s`: the literal marker followed by at least one hex character. -/
def headMatch (s : List Char) : Bool :=
  marker.isPrefixOf s &&
    (match s.drop marker.length with
     | c :: _ => hexChar c
     | [] => false)

/-- Fuelled scanner implementing `re.sub` for the pattern
`(COMFYUI_COMMIT=)([a-f0-9]+)` with replacement `\g<1>` ++ `hash`
(pr_creator.py 174-177): scan left to right; at a match, emit the marker
followed by `hash`, skip the maximal hex run (the group is greedy and
nothing follows it in the pattern), and continue after it; otherwise emit
one character and move on.  The fuel only forces structural recursion;
`s.length` units always suffice. -/
def comfySubFuel (hash : List Char) : Nat → List Char → List Char
  | 0, _ => []
  | _ + 1, [] => []
  | n + 1, c :: cs =>
    if headMatch (c :: cs) then
      marker ++ hash ++
        comfySubFuel hash n (((c :: cs).drop marker.length).dropWhile hexChar)
    else
      c :: comfySubFuel hash n cs

/-- Substitution `re.sub(r"(COMFYUI_COMMIT=)([a-f0-9]+)", rf"\g<1>{h}", s)`
with `h` the replacement hash (pr_creator.py 177). -/
def comfySub (hash s : List Char) : List Char :=
  comfySubFuel hash s.length s

/-- Commit hash derived in `_update_file_content` (pr_creator.py 176):
`new_version.lstrip("v")[:7]`. -/
def deriveCommitHash (new_version : List Char) : List Char :=
  (new_version.dropWhile (fun c => c == 'v')).take 7

/-- Branch of `PRCreator._update_file_content` (pr_creator.py 171-177) taken
when `update_repo == "comfyanonymous/ComfyUI"`: substitute the derived
commit hash for every `COMFYUI_COMMIT=<hex>` marker in the content. -/
def update_file_content_comfyui (content new_version : List Char) : List Char :=
  comfySub (deriveCommitHash new_version) content

/-- First character of a list is absent or not a hex character; this is the
shape of every residue left after skipping a maximal hex run. -/
def headNonhex (l : List Char) : Bool :=
  match l with
  | [] => true
  | c :: _ => !hexChar c

/-- Recommendation-to-label map as the spec words it (UPDATE to enhancement,
EVALUATE to needs-testing, BLOCK to blocked, IGNORE to wontfix), written
for recommendations drawn from that enum. -/
def spec_rec_label (r : String) : String :=
  if r = "UPDATE" then "enhancement"
  else if r = "EVALUATE" then "needs-testing"
  else if r = "BLOCK" then "blocked"
  else "wontfix"

/-- Priority tier labels actually attached by the code: present only from
priority 5 upward. -/
def spec_tier_labels (p : Int) : List String :=
  if 9 ≤ p then ["priority:critical"]
  else if 7 ≤ p then ["priority:high"]
  else if 5 ≤ p then ["priority:medium"]
  else []

/-
Theorems.  Each claim of the review is settled below; helper lemmas come
first and are shared, never the claim theorems themselves.
-/

theorem get_last_seen_update_self (st : AgentState) (k v now : String) :
    get_last_seen (update_last_seen st k v now) k = some v := by
  simp [get_last_seen, update_last_seen]

theorem get_last_seen_update_other (st : AgentState) (k k' v now : String)
    (h : k' ≠ k) :
    get_last_seen (update_last_seen st k v now) k' = get_last_seen st k' := by
  simp [get_last_seen, update_last_seen, h]

theorem get_last_seen_applyUpdates (st : AgentState)
    (ms : List (String × String × String)) (sid : String)
    (h : ∀ m ∈ ms, m.1 ≠ sid) :
    get_last_seen (applyUpdates st ms) sid = get_last_seen st sid := by
  induction ms generalizing st with
  | nil => rfl
  | cons m ms ih =>
    have hm : m.1 ≠ sid := h m (List.mem_cons_self m ms)
    have hms : ∀ m' ∈ ms, m'.1 ≠ sid := fun m' hmem => h m' (List.mem_cons_of_mem m hmem)
    calc get_last_seen (applyUpdates st (m :: ms)) sid
        = get_last_seen (applyUpdates (update_last_seen st m.1 m.2.1 m.2.2) ms) sid := rfl
      _ = get_last_seen (update_last_seen st m.1 m.2.1 m.2.2) sid := ih _ hms
      _ = get_last_seen st sid := get_last_seen_update_other _ _ _ _ _ (Ne.symm hm)

/-- Claim C7: for every prior state, after `update_last_seen sid v` is the
most recent mutation touching `sid` (any number of later mutations may
touch other keys), `is_new_version sid v` returns false and
`is_new_version sid v2` returns true for every `v2` different from `v`. -/
theorem recordSeen_isNew (st : AgentState) (sid v now v2 : String)
    (ms : List (String × String × String)) (hms : ∀ m ∈ ms, m.1 ≠ sid)
    (hne : v2 ≠ v) :
    is_new_version (applyUpdates (update_last_seen st sid v now) ms) sid v = false ∧
    is_new_version (applyUpdates (update_last_seen st sid v now) ms) sid v2 = true := by
  have hg : get_last_seen (applyUpdates (update_last_seen st sid v now) ms) sid = some v := by
    rw [get_last_seen_applyUpdates _ _ _ hms, get_last_seen_update_self]
  constructor
  · simp [is_new_version, hg]
  · simp only [is_new_version, hg]
    simp [bne_iff_ne]
    exact fun hvv => hne hvv.symm

theorem recordSeen_isNew_witness :
    is_new_version (applyUpdates (update_last_seen (fun _ => none) "acme/widget" "v1.0" "t0")
      [("other/repo", "v2", "t1")]) "acme/widget" "v1.0" = false ∧
    is_new_version (applyUpdates (update_last_seen (fun _ => none) "acme/widget" "v1.0" "t0")
      [("other/repo", "v2", "t1")]) "acme/widget" "v9" = true :=
  recordSeen_isNew (fun _ => none) "acme/widget" "v1.0" "t0" "v9"
    [("other/repo", "v2", "t1")] (by decide) (by decide)

/-- Claim C1 (code bug exhibit): a tag-watched source is re-analyzed for the
same version on every invocation, although the state write of the first
invocation succeeded.  The scan checks newness under key
"acme/widget/tags" (main.py 79-81) while `process_update` records the seen
version under "acme/widget" (main.py 101, 132, 159), so the recorded
version can never suppress a tag re-scan: the second cycle hands the
identical (source, version) pair to `analyze_update` again, contradicting
the at-most-one-analysis invariant. -/
theorem tag_rescan_reanalyzes :
    (run_cycle (fun _ => none) (RepoConfig.mk "acme" "widget" ["tags"])
        none (some "v1") "t1").2 = [Update.mk "tag" "acme/widget" "v1"] ∧
    get_last_seen (run_cycle (fun _ => none) (RepoConfig.mk "acme" "widget" ["tags"])
        none (some "v1") "t1").1 "acme/widget" = some "v1" ∧
    get_last_seen (run_cycle (fun _ => none) (RepoConfig.mk "acme" "widget" ["tags"])
        none (some "v1") "t1").1 "acme/widget/tags" = none ∧
    (run_cycle (run_cycle (fun _ => none) (RepoConfig.mk "acme" "widget" ["tags"])
          none (some "v1") "t1").1 (RepoConfig.mk "acme" "widget" ["tags"])
        none (some "v1") "t2").2 = [Update.mk "tag" "acme/widget" "v1"] := by
  refine ⟨rfl, rfl, rfl, ?_⟩
  rfl

theorem should_create_issue_some (p : Int) (r : String) (t : Int) :
    should_create_issue (AnalysisDict.mk (some p) (some r) none none none none none) t = true ↔
      (9 ≤ p ∨ r = "BLOCK") ∨ (t ≤ p ∧ r ≠ "IGNORE") := by
  unfold should_create_issue
  simp only [Option.getD_some]
  constructor
  · intro h
    split_ifs at h with h1 h2
    · exact Or.inl h1
    · exact Or.inr h2
  · intro h
    split_ifs with h1 h2
    · rfl
    · rfl
    · exfalso
      rcases h with h | h
      · exact h1 h
      · exact h2 h

/-- Claim C4: `should_create_issue` on a verdict with integer priority `p`
and recommendation `r` returns true exactly when `p >= 9` or `r = BLOCK`,
or `p` meets the threshold and `r` is not IGNORE; in particular it is true
whenever `p = 10` or `r = BLOCK`, for every threshold.  Being a Lean
function of its arguments it is pure and total by construction. -/
theorem decision_policy_rule (p t : Int) (r : String) :
    (should_create_issue (AnalysisDict.mk (some p) (some r) none none none none none) t = true ↔
      (9 ≤ p ∨ r = "BLOCK") ∨ (t ≤ p ∧ r ≠ "IGNORE")) ∧
    ((p = 10 ∨ r = "BLOCK") →
      should_create_issue (AnalysisDict.mk (some p) (some r) none none none none none) t = true) := by
  refine ⟨should_create_issue_some p r t, fun h => (should_create_issue_some p r t).2 ?_⟩
  rcases h with h | h
  · exact Or.inl (Or.inl (by omega))
  · exact Or.inl (Or.inr h)

theorem decision_policy_rule_witness :
    should_create_issue (AnalysisDict.mk (some 10) (some "UPDATE") none none none none none) 7
      = true :=
  (decision_policy_rule 10 7 "UPDATE").2 (Or.inl rfl)

/-- Claim C9: for a fixed recommendation that is neither BLOCK nor IGNORE
and a fixed threshold, `should_create_issue` is monotone in the priority:
if it returns true at `p1` then it returns true at every `p2 >= p1`. -/
theorem decision_policy_monotone (r : String) (t p1 p2 : Int)
    (_hb : r ≠ "BLOCK") (_hi : r ≠ "IGNORE") (hp : p1 ≤ p2)
    (h : should_create_issue (AnalysisDict.mk (some p1) (some r) none none none none none) t
      = true) :
    should_create_issue (AnalysisDict.mk (some p2) (some r) none none none none none) t
      = true := by
  rw [should_create_issue_some] at h ⊢
  rcases h with (h | h) | h
  · exact Or.inl (Or.inl (by omega))
  · exact Or.inl (Or.inr h)
  · exact Or.inr ⟨by omega, h.2⟩

theorem decision_policy_monotone_witness :
    should_create_issue (AnalysisDict.mk (some 8) (some "UPDATE") none none none none none) 5
      = true :=
  decision_policy_monotone "UPDATE" 5 6 8 (by decide) (by decide) (by omega) (by decide)

/-- Claim C10: an analysis dictionary carrying neither a priority nor a
recommendation key defaults to priority 0 and recommendation IGNORE, so
`should_create_issue` returns false for every threshold. -/
theorem decision_policy_missing_fields (t : Int) :
    should_create_issue (AnalysisDict.mk none none none none none none none) t = false := by
  unfold should_create_issue
  simp only [Option.getD_none]
  split_ifs with h1 h2
  · exfalso
    rcases h1 with h | h
    · omega
    · exact absurd h (by decide)
  · exact absurd rfl h2.2
  · rfl

/-- Claim C5: whenever the LLM call raises, or it returns text whose
extracted JSON fails to parse, `analyze_update` returns exactly the fixed
degraded verdict (priority 5, recommendation EVALUATE, breaking_changes
false, the manual-review summary, risks ["Unable to analyze
automatically"]) and, being a total function, never raises. -/
theorem analyze_update_degraded (cur new text : String)
    (json_loads : String → Option AnalysisDict)
    (hparse : json_loads (extractJsonText text) = none) :
    analyze_update cur new LLMResult.raised json_loads = fallback_analysis cur new ∧
    analyze_update cur new (LLMResult.returned text) json_loads = fallback_analysis cur new ∧
    (fallback_analysis cur new).priority = some 5 ∧
    (fallback_analysis cur new).recommendation = some "EVALUATE" ∧
    (fallback_analysis cur new).breaking_changes = some false ∧
    (fallback_analysis cur new).summary =
      some ("Update from " ++ cur ++ " to " ++ new ++ " detected. Manual review needed.") ∧
    (fallback_analysis cur new).risks = some ["Unable to analyze automatically"] := by
  refine ⟨rfl, ?_, rfl, rfl, rfl, rfl, rfl⟩
  simp [analyze_update, hparse]

theorem analyze_update_degraded_witness :
    analyze_update "v1" "v2" LLMResult.raised (fun _ => none) = fallback_analysis "v1" "v2" ∧
    analyze_update "v1" "v2" (LLMResult.returned "oops, no JSON here") (fun _ => none)
      = fallback_analysis "v1" "v2" ∧
    (fallback_analysis "v1" "v2").priority = some 5 ∧
    (fallback_analysis "v1" "v2").recommendation = some "EVALUATE" ∧
    (fallback_analysis "v1" "v2").breaking_changes = some false ∧
    (fallback_analysis "v1" "v2").summary =
      some ("Update from " ++ "v1" ++ " to " ++ "v2" ++ " detected. Manual review needed.") ∧
    (fallback_analysis "v1" "v2").risks = some ["Unable to analyze automatically"] :=
  analyze_update_degraded "v1" "v2" "oops, no JSON here" (fun _ => none) rfl

/-- Claim C6 counterexample: for the verdict with priority 3,
recommendation BLOCK and breaking_changes false, the computed label set is
exactly the two constant labels plus "blocked" and carries no priority
tier label at all, although the claim promises a tier label for every
verdict. -/
theorem labels_missing_tier_counterexample :
    get_labels_for_update
        (AnalysisDict.mk (some 3) (some "BLOCK") (some false) none none none none)
      = ["maintenance-agent", "dependencies", "blocked"] ∧
    ∀ l ∈ get_labels_for_update
        (AnalysisDict.mk (some 3) (some "BLOCK") (some false) none none none none),
      l ≠ "priority:critical" ∧ l ≠ "priority:high" ∧ l ≠ "priority:medium" := by
  constructor
  · decide
  · decide

/-- Claim C6 as amended: for every verdict whose recommendation is one of
the four enum values, the labels are the two constants, then the mapped
recommendation label, then a priority tier label only when the priority is
at least 5 (critical from 9, high from 7, medium from 5, nothing below),
then "breaking-change" exactly when breaking_changes is true. -/
theorem labels_derivation (p : Int) (r : String) (b : Bool)
    (hr : r = "UPDATE" ∨ r = "EVALUATE" ∨ r = "BLOCK" ∨ r = "IGNORE") :
    get_labels_for_update (AnalysisDict.mk (some p) (some r) (some b) none none none none)
      = ["maintenance-agent", "dependencies"] ++ [spec_rec_label r] ++ spec_tier_labels p ++
        (if b then ["breaking-change"] else []) := by
  rcases hr with rfl | rfl | rfl | rfl <;> rfl

theorem labels_derivation_witness :
    get_labels_for_update
        (AnalysisDict.mk (some 7) (some "UPDATE") (some true) none none none none)
      = ["maintenance-agent", "dependencies"] ++ [spec_rec_label "UPDATE"] ++
        spec_tier_labels 7 ++ (if true then ["breaking-change"] else []) :=
  labels_derivation 7 "UPDATE" true (Or.inl rfl)

/-- Claim C8: when the issue search returns an item whose title contains
the source+version search substring case-insensitively,
`create_update_notification` returns false and never calls `create_issue`;
and when no duplicate is found but issue creation fails, it also returns
false, the caller seeing only the boolean in both cases. -/
theorem notify_dedup_and_failure (source_repo new : String) (items : List Issue)
    (search_result : Option (List Issue)) (create_result : Option Issue)
    (hdup : ∃ item ∈ items,
      strContains (lowerStr item.title) (lowerStr (source_repo ++ " " ++ new)) = true) :
    create_update_notification source_repo new (some items) create_result
      = NotifyResult.mk false false ∧
    (check_existing_issue search_result (source_repo ++ " " ++ new) = none →
      create_update_notification source_repo new search_result none
        = NotifyResult.mk false true) := by
  constructor
  · obtain ⟨item, hmem, hc⟩ := hdup
    cases hfind : check_existing_issue (some items) (source_repo ++ " " ++ new) with
    | some it =>
      simp only [create_update_notification]
      rw [hfind]
    | none =>
      exfalso
      simp only [check_existing_issue] at hfind
      rw [List.find?_eq_none] at hfind
      exact absurd hc (by simpa using hfind item hmem)
  · intro h
    simp only [create_update_notification]
    rw [h]
    rfl

theorem notify_dedup_and_failure_witness :
    create_update_notification "acme/widget" "v2.0"
        (some [Issue.mk "[UPDATE] acme/widget v2.0 available"]) (some (Issue.mk "created"))
      = NotifyResult.mk false false ∧
    (check_existing_issue (some []) ("acme/widget" ++ " " ++ "v2.0") = none →
      create_update_notification "acme/widget" "v2.0" (some []) none
        = NotifyResult.mk false true) :=
  notify_dedup_and_failure "acme/widget" "v2.0"
    [Issue.mk "[UPDATE] acme/widget v2.0 available"] (some []) (some (Issue.mk "created"))
    ⟨Issue.mk "[UPDATE] acme/widget v2.0 available", by decide, by decide⟩

/-- Claim C2: the scanner's version lookup `check_for_updates` tries the
latest release first: when a release is present the tag lookup never
influences the result; and when the release lookup yields absent while a
most recent tag with name `name` exists, the returned candidate version is
that tag name rather than absent. -/
theorem check_for_updates_tag_fallback (cur name : String) (t : TagData)
    (r : ReleaseData) (t1 t2 : Option TagData) (hname : t.name = some name) :
    (check_for_updates cur none (some t)).latest = name ∧
    check_for_updates cur (some r) t1 = check_for_updates cur (some r) t2 := by
  constructor
  · simp [check_for_updates, hname]
  · rfl

theorem check_for_updates_tag_fallback_witness :
    (check_for_updates "v1.0" none (some (TagData.mk (some "v1.1")))).latest = "v1.1" ∧
    check_for_updates "v1.0" (some (ReleaseData.mk (some "v2.0") (some "notes")))
        (some (TagData.mk (some "v1.1")))
      = check_for_updates "v1.0" (some (ReleaseData.mk (some "v2.0") (some "notes"))) none :=
  check_for_updates_tag_fallback "v1.0" "v1.1" (TagData.mk (some "v1.1"))
    (ReleaseData.mk (some "v2.0") (some "notes"))
    (some (TagData.mk (some "v1.1"))) none rfl


theorem nil_isPrefixOf (bs : List Char) : ([] : List Char).isPrefixOf bs = true := by
  cases bs <;> rfl

theorem isPrefixOf_cons_cons (a b : Char) (as bs : List Char) :
    (a :: as).isPrefixOf (b :: bs) = (a == b && as.isPrefixOf bs) := rfl

theorem isPrefixOf_trans : ∀ (p q s : List Char),
    p.isPrefixOf q = true → q.isPrefixOf s = true → p.isPrefixOf s = true := by
  intro p
  induction p with
  | nil => intro q s _ _; exact nil_isPrefixOf s
  | cons a p' ih =>
    intro q s hpq hqs
    cases q with
    | nil => cases hpq
    | cons b q' =>
      cases s with
      | nil => cases hqs
      | cons c s' =>
        rw [isPrefixOf_cons_cons] at hpq hqs ⊢
        rw [Bool.and_eq_true] at hpq hqs
        rw [Bool.and_eq_true]
        refine ⟨?_, ih q' s' hpq.2 hqs.2⟩
        have hab : a = b := by simpa using hpq.1
        have hbc : b = c := by simpa using hqs.1
        simp [hab, hbc]

theorem isPrefixOf_append_weaken : ∀ (p m X : List Char),
    p.isPrefixOf m = true → p.isPrefixOf (m ++ X) = true := by
  intro p
  induction p with
  | nil => intro m X _; exact nil_isPrefixOf _
  | cons a p' ih =>
    intro m X h
    cases m with
    | nil => cases h
    | cons b m' =>
      rw [isPrefixOf_cons_cons, Bool.and_eq_true] at h
      rw [List.cons_append, isPrefixOf_cons_cons, Bool.and_eq_true]
      exact ⟨h.1, ih m' X h.2⟩

theorem isPrefixOf_append_cases : ∀ (m p X : List Char),
    p.isPrefixOf (m ++ X) = true →
    p.isPrefixOf m = true ∨ ∃ q, p = m ++ q ∧ q.isPrefixOf X = true := by
  intro m
  induction m with
  | nil => intro p X h; exact Or.inr ⟨p, rfl, h⟩
  | cons b m' ih =>
    intro p X h
    cases p with
    | nil => exact Or.inl (nil_isPrefixOf _)
    | cons a p' =>
      rw [List.cons_append, isPrefixOf_cons_cons, Bool.and_eq_true] at h
      rcases ih p' X h.2 with h1 | ⟨q, rfl, hq⟩
      · refine Or.inl ?_
        rw [isPrefixOf_cons_cons, Bool.and_eq_true]
        exact ⟨h.1, h1⟩
      · refine Or.inr ⟨q, ?_, hq⟩
        have hab : a = b := by simpa using h.1
        rw [hab, List.cons_append]

theorem isPrefixOf_decomp : ∀ (p s : List Char),
    p.isPrefixOf s = true → s = p ++ s.drop p.length := by
  intro p
  induction p with
  | nil => intro s _; simp
  | cons a p' ih =>
    intro s h
    cases s with
    | nil => cases h
    | cons b s' =>
      rw [isPrefixOf_cons_cons, Bool.and_eq_true] at h
      have hab : a = b := by simpa using h.1
      have := ih s' h.2
      calc b :: s' = b :: (p' ++ s'.drop p'.length) := by rw [← this]
        _ = (a :: p') ++ (b :: s').drop (a :: p').length := by
            rw [hab]; simp [List.length_cons]

theorem marker_isPrefixOf_append (X : List Char) :
    marker.isPrefixOf (marker ++ X) = true := by
  simp [marker, isPrefixOf_cons_cons, nil_isPrefixOf]

theorem marker_all_nonhex : ∀ c ∈ marker, hexChar c = false := by decide

theorem dropWhile_length_le (p : Char → Bool) :
    ∀ (l : List Char), (l.dropWhile p).length ≤ l.length := by
  intro l
  induction l with
  | nil => exact Nat.le_refl _
  | cons a l ih =>
    rw [List.dropWhile_cons]
    by_cases h : p a = true
    · rw [if_pos h]
      exact Nat.le_trans ih (Nat.le_succ _)
    · rw [if_neg h]

theorem headNonhex_dropWhile (l : List Char) :
    headNonhex (l.dropWhile hexChar) = true := by
  induction l with
  | nil => rfl
  | cons a l ih =>
    rw [List.dropWhile_cons]
    by_cases h : hexChar a = true
    · rw [if_pos h]; exact ih
    · rw [if_neg h]
      have ha : hexChar a = false := Bool.eq_false_iff.mpr h
      simp [headNonhex, ha]

theorem dropWhile_of_headNonhex (l : List Char) (h : headNonhex l = true) :
    l.dropWhile hexChar = l := by
  cases l with
  | nil => rfl
  | cons a l =>
    have ha : hexChar a = false := by simpa [headNonhex] using h
    rw [List.dropWhile_cons, if_neg (by simp [ha])]

theorem dropWhile_hex_append (l1 l2 : List Char) (h : ∀ c ∈ l1, hexChar c = true) :
    (l1 ++ l2).dropWhile hexChar = l2.dropWhile hexChar := by
  induction l1 with
  | nil => rfl
  | cons a l1 ih =>
    rw [List.cons_append, List.dropWhile_cons,
      if_pos (h a (List.mem_cons_self a l1))]
    exact ih (fun c hc => h c (List.mem_cons_of_mem a hc))

theorem comfySubFuel_congr (hash : List Char) :
    ∀ (n m : Nat) (s : List Char), s.length ≤ n → s.length ≤ m →
      comfySubFuel hash n s = comfySubFuel hash m s := by
  intro n
  induction n with
  | zero =>
    intro m s h1 _
    have hs : s = [] := List.length_eq_zero.mp (Nat.le_zero.mp h1)
    subst hs
    cases m <;> rfl
  | succ n ih =>
    intro m s h1 h2
    cases s with
    | nil => cases m <;> rfl
    | cons c cs =>
      cases m with
      | zero => simp [List.length_cons] at h2
      | succ m' =>
        show comfySubFuel hash (n + 1) (c :: cs) = comfySubFuel hash (m' + 1) (c :: cs)
        rw [comfySubFuel, comfySubFuel]
        by_cases h : headMatch (c :: cs) = true
        · rw [if_pos h, if_pos h]
          have hlen : (((c :: cs).drop marker.length).dropWhile hexChar).length ≤ cs.length := by
            have hd := dropWhile_length_le hexChar ((c :: cs).drop marker.length)
            have hdl := List.length_drop marker.length (c :: cs)
            have hml : marker.length = 15 := rfl
            have hcl : (c :: cs).length = cs.length + 1 := rfl
            omega
          have hn : (((c :: cs).drop marker.length).dropWhile hexChar).length ≤ n := by
            have : cs.length ≤ n := by simpa [List.length_cons, Nat.succ_le_succ_iff] using h1
            omega
          have hm : (((c :: cs).drop marker.length).dropWhile hexChar).length ≤ m' := by
            have : cs.length ≤ m' := by simpa [List.length_cons, Nat.succ_le_succ_iff] using h2
            omega
          rw [ih _ _ hn hm]
        · rw [if_neg h, if_neg h]
          have hn : cs.length ≤ n := by simpa [List.length_cons, Nat.succ_le_succ_iff] using h1
          have hm : cs.length ≤ m' := by simpa [List.length_cons, Nat.succ_le_succ_iff] using h2
          rw [ih _ _ hn hm]

theorem comfySub_cons (hash : List Char) (c : Char) (cs : List Char) :
    comfySub hash (c :: cs) =
      if headMatch (c :: cs) then
        marker ++ hash ++ comfySub hash (((c :: cs).drop marker.length).dropWhile hexChar)
      else c :: comfySub hash cs := by
  show comfySubFuel hash (c :: cs).length (c :: cs) = _
  rw [show (c :: cs).length = cs.length + 1 from rfl]
  rw [comfySubFuel]
  by_cases h : headMatch (c :: cs) = true
  · rw [if_pos h, if_pos h]
    have hlen : (((c :: cs).drop marker.length).dropWhile hexChar).length ≤ cs.length := by
      have hd := dropWhile_length_le hexChar ((c :: cs).drop marker.length)
      have hdl := List.length_drop marker.length (c :: cs)
      have hml : marker.length = 15 := rfl
      have hcl : (c :: cs).length = cs.length + 1 := rfl
      omega
    rw [comfySubFuel_congr hash cs.length _ _ hlen (Nat.le_refl _)]
    rfl
  · rw [if_neg h, if_neg h]
    rfl

theorem comfySub_cons_neg (hash : List Char) (c : Char) (cs : List Char)
    (h : headMatch (c :: cs) = false) :
    comfySub hash (c :: cs) = c :: comfySub hash cs := by
  rw [comfySub_cons, if_neg (by simp [h])]

theorem comfySub_cons_pos (hash : List Char) (c : Char) (cs : List Char)
    (h : headMatch (c :: cs) = true) :
    comfySub hash (c :: cs) =
      marker ++ hash ++ comfySub hash (((c :: cs).drop marker.length).dropWhile hexChar) := by
  rw [comfySub_cons, if_pos h]

theorem headNonhex_comfySub (hash s : List Char) (h : headNonhex s = true) :
    headNonhex (comfySub hash s) = true := by
  cases s with
  | nil => rfl
  | cons c cs =>
    by_cases hm : headMatch (c :: cs) = true
    · rw [comfySub_cons_pos _ _ _ hm]
      rfl
    · rw [comfySub_cons_neg _ _ _ (Bool.eq_false_iff.mpr hm)]
      simpa [headNonhex] using h

theorem headMatch_true_elim (s : List Char) (h : headMatch s = true) :
    marker.isPrefixOf s = true ∧
      ∃ d t, s.drop marker.length = d :: t ∧ hexChar d = true := by
  unfold headMatch at h
  rw [Bool.and_eq_true] at h
  refine ⟨h.1, ?_⟩
  have h2 := h.2
  cases hd : s.drop marker.length with
  | nil => rw [hd] at h2; cases h2
  | cons d t =>
    rw [hd] at h2
    exact ⟨d, t, rfl, h2⟩

theorem headMatch_marker_append (r : List Char) (h : headNonhex r = true) :
    headMatch (marker ++ r) = false := by
  unfold headMatch
  rw [marker_isPrefixOf_append, List.drop_left]
  cases r with
  | nil => rfl
  | cons d r' =>
    have hd : hexChar d = false := by simpa [headNonhex] using h
    simp [hd]

theorem headMatch_nonmarker_1 (r : List Char) :
    headMatch ('O' :: 'M' :: 'F' :: 'Y' :: 'U' :: 'I' :: '_' :: 'C' :: 'O' :: 'M' :: 'M' :: 'I' :: 'T' :: '=' :: r) = false := rfl

theorem headMatch_nonmarker_2 (r : List Char) :
    headMatch ('M' :: 'F' :: 'Y' :: 'U' :: 'I' :: '_' :: 'C' :: 'O' :: 'M' :: 'M' :: 'I' :: 'T' :: '=' :: r) = false := rfl

theorem headMatch_nonmarker_3 (r : List Char) :
    headMatch ('F' :: 'Y' :: 'U' :: 'I' :: '_' :: 'C' :: 'O' :: 'M' :: 'M' :: 'I' :: 'T' :: '=' :: r) = false := rfl

theorem headMatch_nonmarker_4 (r : List Char) :
    headMatch ('Y' :: 'U' :: 'I' :: '_' :: 'C' :: 'O' :: 'M' :: 'M' :: 'I' :: 'T' :: '=' :: r) = false := rfl

theorem headMatch_nonmarker_5 (r : List Char) :
    headMatch ('U' :: 'I' :: '_' :: 'C' :: 'O' :: 'M' :: 'M' :: 'I' :: 'T' :: '=' :: r) = false := rfl

theorem headMatch_nonmarker_6 (r : List Char) :
    headMatch ('I' :: '_' :: 'C' :: 'O' :: 'M' :: 'M' :: 'I' :: 'T' :: '=' :: r) = false := rfl

theorem headMatch_nonmarker_7 (r : List Char) :
    headMatch ('_' :: 'C' :: 'O' :: 'M' :: 'M' :: 'I' :: 'T' :: '=' :: r) = false := rfl

theorem headMatch_nonmarker_8 (r : List Char) :
    headMatch ('C' :: 'O' :: 'M' :: 'M' :: 'I' :: 'T' :: '=' :: r) = false := rfl

theorem headMatch_nonmarker_9 (r : List Char) :
    headMatch ('O' :: 'M' :: 'M' :: 'I' :: 'T' :: '=' :: r) = false := rfl

theorem headMatch_nonmarker_10 (r : List Char) :
    headMatch ('M' :: 'M' :: 'I' :: 'T' :: '=' :: r) = false := rfl

theorem headMatch_nonmarker_11 (r : List Char) :
    headMatch ('M' :: 'I' :: 'T' :: '=' :: r) = false := rfl

theorem headMatch_nonmarker_12 (r : List Char) :
    headMatch ('I' :: 'T' :: '=' :: r) = false := rfl

theorem headMatch_nonmarker_13 (r : List Char) :
    headMatch ('T' :: '=' :: r) = false := rfl

theorem headMatch_nonmarker_14 (r : List Char) :
    headMatch ('=' :: r) = false := rfl

theorem comfySub_marker_append (hash r : List Char) (hr : headNonhex r = true) :
    comfySub hash (marker ++ r) = marker ++ comfySub hash r := by
  have h0 : headMatch ('C' :: 'O' :: 'M' :: 'F' :: 'Y' :: 'U' :: 'I' :: '_' :: 'C' :: 'O' :: 'M' :: 'M' :: 'I' :: 'T' :: '=' :: r) = false :=
    headMatch_marker_append r hr
  show comfySub hash ('C' :: 'O' :: 'M' :: 'F' :: 'Y' :: 'U' :: 'I' :: '_' :: 'C' :: 'O' :: 'M' :: 'M' :: 'I' :: 'T' :: '=' :: r)
      = 'C' :: 'O' :: 'M' :: 'F' :: 'Y' :: 'U' :: 'I' :: '_' :: 'C' :: 'O' :: 'M' :: 'M' :: 'I' :: 'T' :: '=' :: comfySub hash r
  rw [comfySub_cons_neg _ _ _ h0,
    comfySub_cons_neg _ _ _ (headMatch_nonmarker_1 r),
    comfySub_cons_neg _ _ _ (headMatch_nonmarker_2 r),
    comfySub_cons_neg _ _ _ (headMatch_nonmarker_3 r),
    comfySub_cons_neg _ _ _ (headMatch_nonmarker_4 r),
    comfySub_cons_neg _ _ _ (headMatch_nonmarker_5 r),
    comfySub_cons_neg _ _ _ (headMatch_nonmarker_6 r),
    comfySub_cons_neg _ _ _ (headMatch_nonmarker_7 r),
    comfySub_cons_neg _ _ _ (headMatch_nonmarker_8 r),
    comfySub_cons_neg _ _ _ (headMatch_nonmarker_9 r),
    comfySub_cons_neg _ _ _ (headMatch_nonmarker_10 r),
    comfySub_cons_neg _ _ _ (headMatch_nonmarker_11 r),
    comfySub_cons_neg _ _ _ (headMatch_nonmarker_12 r),
    comfySub_cons_neg _ _ _ (headMatch_nonmarker_13 r),
    comfySub_cons_neg _ _ _ (headMatch_nonmarker_14 r)]


theorem isPrefixOf_nil_elim (p : List Char) (h : p.isPrefixOf ([] : List Char) = true) :
    p = [] := by
  cases p with
  | nil => rfl
  | cons a p' => exact Bool.noConfusion h

theorem comfySub_append_run (hash run rest : List Char) (hrun : run ≠ [])
    (hhexrun : ∀ c ∈ run, hexChar c = true) (hrest : headNonhex rest = true) :
    comfySub hash (marker ++ (run ++ rest)) = marker ++ hash ++ comfySub hash rest := by
  obtain ⟨d, run', rfl⟩ : ∃ d run', run = d :: run' := by
    cases run with
    | nil => exact absurd rfl hrun
    | cons d run' => exact ⟨d, run', rfl⟩
  have hd : hexChar d = true := hhexrun d (List.mem_cons_self d run')
  have hm0 : headMatch (marker ++ (d :: (run' ++ rest))) = true := by
    unfold headMatch
    rw [marker_isPrefixOf_append, List.drop_left]
    simp [hd]
  have hm : headMatch ('C' :: 'O' :: 'M' :: 'F' :: 'Y' :: 'U' :: 'I' :: '_' :: 'C' :: 'O' :: 'M' :: 'M' :: 'I' :: 'T' :: '=' :: d :: (run' ++ rest)) = true := hm0
  show comfySub hash ('C' :: 'O' :: 'M' :: 'F' :: 'Y' :: 'U' :: 'I' :: '_' :: 'C' :: 'O' :: 'M' :: 'M' :: 'I' :: 'T' :: '=' :: d :: (run' ++ rest))
      = marker ++ hash ++ comfySub hash rest
  rw [comfySub_cons_pos _ _ _ hm]
  have hdrop : (('C' :: 'O' :: 'M' :: 'F' :: 'Y' :: 'U' :: 'I' :: '_' :: 'C' :: 'O' :: 'M' :: 'M' :: 'I' :: 'T' :: '=' :: d :: (run' ++ rest)).drop marker.length) = d :: (run' ++ rest) := rfl
  rw [hdrop, List.dropWhile_cons, if_pos hd,
    dropWhile_hex_append run' rest (fun x hx => hhexrun x (List.mem_cons_of_mem d hx)),
    dropWhile_of_headNonhex rest hrest]

theorem comfySub_keeps_nonhex_pre (hash : List Char) (hne : hash ≠ [])
    (hhex : ∀ c ∈ hash, hexChar c = true) :
    ∀ (n : Nat) (s : List Char), s.length ≤ n → ∀ (p : List Char),
      (∀ c ∈ p, hexChar c = false) → p.isPrefixOf (comfySub hash s) = true →
      p.isPrefixOf s = true := by
  intro n
  induction n with
  | zero =>
    intro s hs p hp h
    have hnil : s = [] := List.length_eq_zero.mp (Nat.le_zero.mp hs)
    subst hnil
    have h' : p.isPrefixOf ([] : List Char) = true := h
    rw [isPrefixOf_nil_elim p h']
    exact nil_isPrefixOf _
  | succ n ih =>
    intro s hs p hp h
    cases s with
    | nil =>
      have h' : p.isPrefixOf ([] : List Char) = true := h
      rw [isPrefixOf_nil_elim p h']
      exact nil_isPrefixOf _
    | cons c cs =>
      by_cases hm : headMatch (c :: cs) = true
      · rw [comfySub_cons_pos _ _ _ hm, List.append_assoc] at h
        rcases isPrefixOf_append_cases marker p _ h with h1 | ⟨q, rfl, hq⟩
        · exact isPrefixOf_trans p marker (c :: cs) h1 (headMatch_true_elim _ hm).1
        · cases q with
          | nil =>
            rw [List.append_nil]
            exact (headMatch_true_elim _ hm).1
          | cons d q' =>
            exfalso
            obtain ⟨h0, hash', rfl⟩ : ∃ h0 hash', hash = h0 :: hash' := by
              cases hash with
              | nil => exact absurd rfl hne
              | cons h0 hash' => exact ⟨h0, hash', rfl⟩
            rw [List.cons_append, isPrefixOf_cons_cons, Bool.and_eq_true] at hq
            have hdh : d = h0 := by simpa using hq.1
            have hd_false : hexChar d = false :=
              hp d (List.mem_append.mpr (Or.inr (List.mem_cons_self d q')))
            have hd_true : hexChar h0 = true := hhex h0 (List.mem_cons_self h0 hash')
            rw [hdh] at hd_false
            rw [hd_false] at hd_true
            exact Bool.noConfusion hd_true
      · have hmf : headMatch (c :: cs) = false := Bool.eq_false_iff.mpr hm
        rw [comfySub_cons_neg _ _ _ hmf] at h
        cases p with
        | nil => exact nil_isPrefixOf _
        | cons a p' =>
          rw [isPrefixOf_cons_cons, Bool.and_eq_true] at h ⊢
          have hcs : cs.length ≤ n := by
            have hcl : (c :: cs).length = cs.length + 1 := rfl
            have h3 : (c :: cs).length ≤ n + 1 := hs
            omega
          exact ⟨h.1, ih cs hcs p' (fun x hx => hp x (List.mem_cons_of_mem a hx)) h.2⟩

theorem comfySub_idem_aux (hash : List Char) (hne : hash ≠ [])
    (hhex : ∀ c ∈ hash, hexChar c = true) :
    ∀ (n : Nat) (s : List Char), s.length ≤ n →
      comfySub hash (comfySub hash s) = comfySub hash s := by
  intro n
  induction n with
  | zero =>
    intro s hs
    have hnil : s = [] := List.length_eq_zero.mp (Nat.le_zero.mp hs)
    subst hnil
    rfl
  | succ n ih =>
    intro s hs
    cases s with
    | nil => rfl
    | cons c cs =>
      by_cases hpre : marker.isPrefixOf (c :: cs) = true
      · have hdec := isPrefixOf_decomp marker (c :: cs) hpre
        have hrlen : ((c :: cs).drop marker.length).length ≤ n := by
          have hdl := List.length_drop marker.length (c :: cs)
          have hml : marker.length = 15 := rfl
          have hcl : (c :: cs).length = cs.length + 1 := rfl
          have h3 : (c :: cs).length ≤ n + 1 := hs
          omega
        cases hH : headNonhex ((c :: cs).drop marker.length) with
        | true =>
          rw [hdec, comfySub_marker_append hash _ hH,
            comfySub_marker_append hash _ (headNonhex_comfySub hash _ hH),
            ih _ hrlen]
        | false =>
          obtain ⟨d, t, hdt⟩ : ∃ d t, (c :: cs).drop marker.length = d :: t := by
            cases hcase : (c :: cs).drop marker.length with
            | nil =>
              rw [hcase] at hH
              exact Bool.noConfusion hH
            | cons d t => exact ⟨d, t, rfl⟩
          have hd : hexChar d = true := by
            rw [hdt] at hH
            simpa [headNonhex] using hH
          have hsplit : (d :: t).takeWhile hexChar ++ (d :: t).dropWhile hexChar = d :: t :=
            List.takeWhile_append_dropWhile hexChar (d :: t)
          have hrun_ne : (d :: t).takeWhile hexChar ≠ [] := by
            rw [List.takeWhile_cons, if_pos hd]
            exact List.cons_ne_nil _ _
          have hrun_hex : ∀ x ∈ (d :: t).takeWhile hexChar, hexChar x = true :=
            fun x hx => List.mem_takeWhile_imp hx
          have hrest_nh : headNonhex ((d :: t).dropWhile hexChar) = true :=
            headNonhex_dropWhile (d :: t)
          have hrest_len : ((d :: t).dropWhile hexChar).length ≤ n := by
            have h1 := dropWhile_length_le hexChar (d :: t)
            have h2 : (d :: t).length = ((c :: cs).drop marker.length).length := by rw [hdt]
            omega
          rw [hdec, hdt, ← hsplit,
            comfySub_append_run hash _ _ hrun_ne hrun_hex hrest_nh,
            List.append_assoc,
            comfySub_append_run hash hash _ hne hhex (headNonhex_comfySub hash _ hrest_nh),
            ih _ hrest_len, List.append_assoc]
      · have hpref : marker.isPrefixOf (c :: cs) = false := Bool.eq_false_iff.mpr hpre
        have hm : headMatch (c :: cs) = false := by
          unfold headMatch
          rw [hpref]
          rfl
        rw [comfySub_cons_neg _ _ _ hm]
        have hm2 : headMatch (c :: comfySub hash cs) = false := by
          have hpre2 : marker.isPrefixOf (c :: comfySub hash cs) = false := by
            cases hq : marker.isPrefixOf (c :: comfySub hash cs) with
            | false => rfl
            | true =>
              exfalso
              apply hpre
              apply comfySub_keeps_nonhex_pre hash hne hhex (n + 1) (c :: cs) hs marker
                marker_all_nonhex
              rw [comfySub_cons_neg _ _ _ hm]
              exact hq
          unfold headMatch
          rw [hpre2]
          rfl
        rw [comfySub_cons_neg _ _ _ hm2]
        have hcs : cs.length ≤ n := by
          have hcl : (c :: cs).length = cs.length + 1 := rfl
          have h3 : (c :: cs).length ≤ n + 1 := hs
          omega
        rw [ih cs hcs]


/-- Claim C3 counterexample: with content "COMFYUI_COMMIT=36357bb" and
target version "v1.2.3" the derived hash is "1.2.3"; a first application
yields "COMFYUI_COMMIT=1.2.3" and a second application re-matches the
leading "1" as hex and yields "COMFYUI_COMMIT=1.2.3.2.3", so applying the
ComfyUI commit-substitution rule twice differs from applying it once. -/
theorem comfy_substitution_not_idempotent :
    update_file_content_comfyui
        (update_file_content_comfyui ("COMFYUI_COMMIT=36357bb".toList) ("v1.2.3".toList))
        ("v1.2.3".toList)
      ≠ update_file_content_comfyui ("COMFYUI_COMMIT=36357bb".toList) ("v1.2.3".toList) := by
  decide

/-- Claim C3 as amended: for every file content and every target version
whose derived commit hash (the version with leading v characters stripped,
truncated to 7 characters) is nonempty and consists only of characters
from [a-f0-9] - in particular for every actual commit hash - applying the
ComfyUI commit-substitution rule twice with that version yields the same
content as applying it once. -/
theorem comfy_substitution_idempotent (content new_version : List Char)
    (h1 : deriveCommitHash new_version ≠ [])
    (h2 : ∀ c ∈ deriveCommitHash new_version, hexChar c = true) :
    update_file_content_comfyui (update_file_content_comfyui content new_version) new_version
      = update_file_content_comfyui content new_version :=
  comfySub_idem_aux (deriveCommitHash new_version) h1 h2 content.length content
    (Nat.le_refl _)

theorem comfy_substitution_idempotent_witness :
    update_file_content_comfyui
        (update_file_content_comfyui ("ARG COMFYUI_COMMIT=0000000 build".toList)
          ("36357bbf00".toList))
        ("36357bbf00".toList)
      = update_file_content_comfyui ("ARG COMFYUI_COMMIT=0000000 build".toList)
          ("36357bbf00".toList) :=
  comfy_substitution_idempotent ("ARG COMFYUI_COMMIT=0000000 build".toList)
    ("36357bbf00".toList) (by decide) (by decide)

end MaintAgent
